import Mathlib

/-!
Verification of the PHDx cross-chapter continuity engine and its web client.

The client components (RedThreadModule.tsx, lib/api.ts, the unnamed
consistency-check module) are embedded directly from the TypeScript source.
The continuity core (scoring, reconcile, pair de-duplication) ships as a
remote backend whose code is not part of this repository; those definitions
are modelled from the specification and are marked as such.
-/

/-- Severity of a Missing Link, from the data model: severity is one of
high, medium, low. -/
inductive Severity
  | high
  | medium
  | low
  deriving DecidableEq, Repr

/-- A Missing Link record: from_chapter, to_chapter, description, severity,
suggestion (data model of the spec and the MissingLink interface of
RedThreadModule.tsx). -/
structure MissingLink where
  from_chapter : String
  to_chapter : String
  description : String
  severity : Severity
  suggestion : String
  deriving DecidableEq, Repr

/-- Modelled from the spec: the fixed penalty per Missing Link by severity,
high 25, medium 15, low 5 (scoring algorithm of the Continuity Analyzer;
the analyzer itself is not part of this repository). -/
def severityPenalty : Severity → Int
  | .high => 25
  | .medium => 15
  | .low => 5

/-- Modelled from the spec: start score = 100, subtract the fixed penalty
for each Missing Link, clamp to the interval from 0 to 100 (scoring
algorithm of the Continuity Analyzer, which is not part of this
repository). -/
def computeScore (links : List MissingLink) : Int :=
  max 0 (min 100 (links.foldl (fun s l => s - severityPenalty l.severity) 100))

/-- The three-valued status derived from a continuity score. -/
inductive ScoreStatus
  | broken
  | weak
  | solid
  deriving DecidableEq, Repr

/-- Modelled from the spec: derive status from the score, below 30 broken,
below 70 weak, otherwise solid (the numeric thresholds also appear verbatim
in getScoreColor and the status badge of the client). -/
def deriveStatus (score : Int) : ScoreStatus :=
  if score < 30 then .broken
  else if score < 70 then .weak
  else .solid

/-- The CSS class triple returned by getScoreColor in the consistency-check
client (src/unnamed/part_011, lines 103 to 107). -/
structure ScoreColorClasses where
  bg : String
  text : String
  ring : String
  deriving DecidableEq, Repr

/-- getScoreColor from src/unnamed/part_011 (also RedThreadModule.tsx lines
439 to 443, which adds a glow class to the same three branches): red below
30, amber below 70, green otherwise. -/
def getScoreColor (score : Int) : ScoreColorClasses :=
  if score < 30 then ⟨"bg-red-500", "text-red-400", "ring-red-500/30"⟩
  else if score < 70 then ⟨"bg-amber-500", "text-amber-400", "ring-amber-500/30"⟩
  else ⟨"bg-green-500", "text-green-400", "ring-green-500/30"⟩

/-- The status badge class of RedThreadModule.tsx lines 602 to 608:
the same thresholds select the red, amber or green badge. -/
def statusBadgeClass (score : Int) : String :=
  if score < 30 then "bg-red-500/20 text-red-400"
  else if score < 70 then "bg-amber-500/20 text-amber-400"
  else "bg-green-500/20 text-green-400"

/-- Graph node of the visual graph (GraphNode interface of
RedThreadModule.tsx lines 26 to 31); the type field holds one of
question, argument, evidence, conclusion. -/
structure GraphNode where
  id : String
  label : String
  type : String
  chapter : String
  deriving DecidableEq, Repr

/-- Graph edge of the visual graph (GraphEdge interface of
RedThreadModule.tsx lines 33 to 38). -/
structure GraphEdge where
  source : String
  target : String
  label : Option String
  strength : Int
  deriving DecidableEq, Repr

/-- Chapter abstract entry of the RedThreadResponse payload
(RedThreadModule.tsx lines 61 to 65). -/
structure ChapterAbstract where
  chapter_id : String
  chapter_title : String
  core_argument : String
  deriving DecidableEq, Repr

/-- The thread_status values admitted by RedThreadResponse:
solid, broken or unknown (RedThreadModule.tsx line 55). -/
inductive ThreadStatus
  | solid
  | broken
  | unknown
  deriving DecidableEq, Repr

/-- RedThreadResponse, the continuity report consumed by
RedThreadModule.tsx (lines 53 to 66); optional fields are Option. -/
structure RedThreadResponse where
  continuity_score : Int
  thread_status : ThreadStatus
  status : String
  analysis : String
  missing_links : Option (List MissingLink)
  visual_graph_nodes : Option (List GraphNode)
  visual_graph_edges : Option (List GraphEdge)
  chapter_abstracts : Option (List ChapterAbstract)
  deriving Repr

/-- Cross reference entry of the ConsistencyReport in
src/unnamed/part_011 (lines 21 to 24). -/
structure CrossReference where
  term : String
  occurrences : Int
  deriving DecidableEq, Repr

/-- ConsistencyReport consumed by the consistency-check client in
src/unnamed/part_011 (lines 15 to 25); every field is optional there. -/
structure ConsistencyReport where
  overall_score : Option Int
  status : Option String
  consistency_analysis : Option String
  issues : Option (List String)
  suggestions : Option (List String)
  cross_references : Option (List CrossReference)
  deriving Repr

/-- JavaScript truthiness of an optional numeric field: undefined and 0
are falsy, every other integer is truthy. -/
def jsTruthyOptNum : Option Int → Bool
  | none => false
  | some n => n != 0

/-- scoreColors from src/unnamed/part_011 line 109: the conditional
expression result and overall_score, with getScoreColor applied when the
score is truthy and null otherwise. -/
def scoreColors (result : Option ConsistencyReport) : Option ScoreColorClasses :=
  match result with
  | none => none
  | some r =>
      if jsTruthyOptNum r.overall_score then some (getScoreColor (r.overall_score.getD 0))
      else none

/-- The render guard of the results section in src/unnamed/part_011 line
252: the section renders exactly when both result and scoreColors are
non-null. -/
def resultsSectionRendered (result : Option ConsistencyReport) : Bool :=
  result.isSome && (scoreColors result).isSome

/-- JavaScript truthiness of a string: only the empty string is falsy. -/
def jsTruthyStr (s : String) : Bool := s != ""

/-- The JavaScript trim method: remove whitespace from both ends of the
string. -/
def jsTrim (s : String) : String :=
  ⟨((s.toList.dropWhile Char.isWhitespace).reverse.dropWhile Char.isWhitespace).reverse⟩

/-- The component state of RedThreadModule (RedThreadModule.tsx lines 409
to 413): introduction, discussion, result, isProcessing, error. -/
structure RedThreadState where
  introduction : String
  discussion : String
  result : Option RedThreadResponse
  isProcessing : Bool
  error : Option String

/-- The synchronous phase of handleCheck (RedThreadModule.tsx lines 415 to
420): if introduction.trim() or discussion.trim() is falsy the handler
returns at once, otherwise it sets isProcessing and clears the error before
issuing the request. The boolean records whether a request is issued. -/
def handleCheckStart (st : RedThreadState) : RedThreadState × Bool :=
  if !(jsTruthyStr (jsTrim st.introduction)) || !(jsTruthyStr (jsTrim st.discussion)) then
    (st, false)
  else ({ st with isProcessing := true, error := none }, true)

/-- The disabled condition of the Check Continuity button
(RedThreadModule.tsx line 501). -/
def checkButtonDisabled (st : RedThreadState) : Bool :=
  st.isProcessing || !(jsTruthyStr (jsTrim st.introduction)) || !(jsTruthyStr (jsTrim st.discussion))

/-- An HTTP response as seen by safeFetch in lib/api.ts: the ok flag, the
numeric status, the optional detail field of the parsed error body, and
the parsed JSON body. -/
structure HttpResponse (α : Type) where
  ok : Bool
  status : Nat
  errorDetail : Option String
  body : α

/-- A Zod schema as used by safeFetch: safeParse either succeeds with the
typed data or fails with a list of issues. -/
structure ZodSchema (α β : Type) where
  safeParse : α → Except (List String) β

/-- Outcome of safeFetch: the returned value, a thrown APIError carrying
the HTTP status, or a thrown APIValidationError carrying the issues. -/
inductive FetchOutcome (β : Type)
  | success (data : β)
  | apiError (message : String) (status : Nat)
  | validationError (message : String) (issues : List String)

/-- The errorMessage computed by safeFetch for a non-ok response
(lib/api.ts lines 49 to 57): the detail field of the error body when it
parsed, otherwise a default message naming the status. -/
def apiErrorMessage (status : Nat) (errorDetail : Option String) : String :=
  match errorDetail with
  | some d => d
  | Option.none => "API error: " ++ toString status

/-- safeFetch from lib/api.ts lines 39 to 73: a non-ok response throws an
APIError with the detail message, or a default one naming the status; an
ok response is validated through schema.safeParse and either returned or
turned into an APIValidationError with the issues. -/
def safeFetch {α β : Type} (response : HttpResponse α) (schema : ZodSchema α β) :
    FetchOutcome β :=
  if !response.ok then
    FetchOutcome.apiError (apiErrorMessage response.status response.errorDetail) response.status
  else
    match schema.safeParse response.body with
    | .error issues =>
        FetchOutcome.validationError
          ("API response validation failed: " ++ String.intercalate ", " issues) issues
    | .ok data => FetchOutcome.success data

/-- The field names of the RedThreadResponse interface
(RedThreadModule.tsx lines 53 to 66). -/
def redThreadResponseFields : List String :=
  ["continuity_score", "thread_status", "status", "analysis", "missing_links",
   "visual_graph_nodes", "visual_graph_edges", "chapter_abstracts"]

/-- The field names of the RedThreadCheckResponse interface
(lib/api.ts lines 162 to 172). -/
def redThreadCheckResponseFields : List String :=
  ["overall_score", "status", "consistency_analysis", "cross_references", "suggestions"]

/-- The literal values of the thread_status union type
(RedThreadModule.tsx line 55). -/
def threadStatusValues : List String := ["solid", "broken", "unknown"]

/-- Field names that would mark a report as partially complete. -/
def markerFieldNames : List String :=
  ["incomplete", "is_incomplete", "complete", "failure_count", "failed_chunks",
   "failed_pairs", "skipped", "degraded"]

/-- Replace the first occurrence of pat in a character list by rep,
mirroring the single-string form of the JavaScript replace method; a list
without an occurrence is returned unchanged. -/
def listReplaceFirst (pat rep : List Char) : List Char → List Char
  | [] => if pat.isEmpty then rep else []
  | c :: rest =>
      if pat.isPrefixOf (c :: rest) then rep ++ (c :: rest).drop pat.length
      else c :: listReplaceFirst pat rep rest

/-- The JavaScript replace method with a plain string pattern: only the
first occurrence is replaced. -/
def jsReplaceFirst (s pat rep : String) : String :=
  ⟨listReplaceFirst pat.toList rep.toList s.toList⟩

/-- Containment of a character sequence, mirroring the JavaScript includes
method on strings; the empty needle is contained everywhere. -/
def listContainsSeq (needle : List Char) : List Char → Bool
  | [] => needle.isEmpty
  | c :: rest => needle.isPrefixOf (c :: rest) || listContainsSeq needle rest

/-- The JavaScript includes method on strings: substring containment. -/
def jsIncludes (s pat : String) : Bool := listContainsSeq pat.toList s.toList

/-- The JavaScript toLowerCase method, on the ASCII range. -/
def jsToLowerCase (s : String) : String := s.map Char.toLower

/-- The chapter display name derived from a node id inside
getConnectionStatus (RedThreadModule.tsx lines 319 to 320): replace the
first ch by the word Chapter and the first underscore by a space. -/
def chapterNameOfId (s : String) : String :=
  jsReplaceFirst (jsReplaceFirst s "ch" "Chapter ") "_" " "

/-- The predicate of the some call inside getConnectionStatus
(RedThreadModule.tsx lines 322 to 326): a link matches the edge from
fromId to toId when its from_chapter contains fromId, or its to_chapter
contains toId, or, case-insensitively, its from_chapter contains the
derived from-chapter name or its to_chapter contains the derived
to-chapter name. -/
def edgeMatchesLink (fromId toId : String) (link : MissingLink) : Bool :=
  jsIncludes link.from_chapter fromId || jsIncludes link.to_chapter toId ||
  jsIncludes (jsToLowerCase link.from_chapter) (jsToLowerCase (chapterNameOfId fromId)) ||
  jsIncludes (jsToLowerCase link.to_chapter) (jsToLowerCase (chapterNameOfId toId))

/-- The connection status of the thread segment between two adjacent
nodes. -/
inductive ConnStatus
  | solid
  | broken
  | none
  deriving DecidableEq, Repr

/-- getConnectionStatus from RedThreadModule.tsx lines 317 to 332: broken
when some missing link matches the disjunctive containment test, else
solid when the thread status is solid, else broken when the thread status
is broken and the missing-link list is empty, else solid. -/
def getConnectionStatus (missingLinks : List MissingLink) (threadStatus : ThreadStatus)
    (fromId toId : String) : ConnStatus :=
  let hasMissingLink := missingLinks.any (edgeMatchesLink fromId toId)
  if hasMissingLink then ConnStatus.broken
  else if threadStatus = ThreadStatus.solid then ConnStatus.solid
  else if threadStatus = ThreadStatus.broken ∧ missingLinks.length = 0 then ConnStatus.broken
  else ConnStatus.solid

/-- A chapter record of the document source: identifier, title, raw text,
last-modified time (data model of the spec; the indexer consuming it is
not part of this repository). -/
structure Chapter where
  chapter_id : String
  title : String
  text : String
  modified_at : Nat

/-- Modelled from the spec: a chunk identifier is derived from the chapter
identifier and the positional index, so it is the pair of the two. -/
abbrev ChunkId := String × Nat

/-- A paragraph-level chunk: chunk_id, chapter_id, position, text and
content_hash (data model of the spec). -/
structure Chunk where
  chunk_id : ChunkId
  chapter_id : String
  position : Nat
  text : String
  content_hash : String
  deriving DecidableEq, Repr

/-- Modelled from the spec: normalization of chunk text, trimming and
collapsing whitespace, realized by splitting on whitespace and rejoining
the non-empty words with single spaces. -/
def normalizeText (s : String) : String :=
  String.intercalate " " ((s.split Char.isWhitespace).filter (fun w => w ≠ ""))

/-- Modelled from the spec: the stable content fingerprint of a chunk,
the hash of its normalized text; since the spec fixes no concrete hash
function it is modelled as the normalized text itself, a perfect
fingerprint. -/
def contentHash (s : String) : String := normalizeText s

/-- Modelled from the spec: split chapter text into paragraph units at
paragraph breaks and drop empty or whitespace-only units. -/
def paragraphsOf (text : String) : List String :=
  (text.splitOn "\n\n").filter (fun p => p.trim ≠ "")

/-- Modelled from the spec: chunk a chapter into its ordered paragraph
units, each with its positional chunk identifier and content hash
(Chunking and Hashing component, not part of this repository). -/
def chunkChapter (c : Chapter) : List Chunk :=
  (paragraphsOf c.text).enum.map (fun pi =>
    { chunk_id := (c.chapter_id, pi.1), chapter_id := c.chapter_id,
      position := pi.1, text := pi.2, content_hash := contentHash pi.2 })

/-- An index entry owned by the Vector Index Backend: chunk_id, embedding,
chapter_id, position, content_hash (data model of the spec). -/
structure IndexEntry where
  chunk_id : ChunkId
  embedding : List Int
  chapter_id : String
  position : Nat
  content_hash : String

/-- Modelled from the spec: the Vector Index Backend state, one entry per
live chunk, here a list of entries. -/
abbrev Backend := List IndexEntry

/-- Modelled from the spec: entry lookup by chunk identifier in the
backend. -/
def lookupEntry (b : Backend) (cid : ChunkId) : Option IndexEntry :=
  match b with
  | [] => Option.none
  | e :: rest => if e.chunk_id = cid then some e else lookupEntry rest cid

/-- Modelled from the spec: upsert inserts or replaces the entry for the
given chunk_id. -/
def upsertEntry (b : Backend) (e : IndexEntry) : Backend :=
  match b with
  | [] => [e]
  | x :: rest => if x.chunk_id = e.chunk_id then e :: rest else x :: upsertEntry rest e

/-- Modelled from the spec: idempotent removal of a set of chunk
identifiers; deleting an absent id is a no-op. -/
def deleteEntries (b : Backend) (ids : List ChunkId) : Backend :=
  b.filter (fun e => !(decide (e.chunk_id ∈ ids)))

/-- Index Stats of the spec: total_chunks, chapters_indexed,
last_indexed, derived from the backend state. -/
structure IndexStats where
  total_chunks : Nat
  chapters_indexed : List String
  last_indexed : Nat

/-- Modelled from the spec: Index Stats derived by querying the backend,
never cached independently. -/
def statsOf (b : Backend) (now : Nat) : IndexStats :=
  { total_chunks := b.length,
    chapters_indexed := (b.map IndexEntry.chapter_id).dedup,
    last_indexed := now }

/-- Modelled from the spec: the index entry written for a chunk, with the
embedding obtained from the Embedding Provider. -/
def entryOfChunk (embed : String → List Int) (ch : Chunk) : IndexEntry :=
  { chunk_id := ch.chunk_id, embedding := embed ch.text, chapter_id := ch.chapter_id,
    position := ch.position, content_hash := ch.content_hash }

/-- Modelled from the spec: a chunk needs an embedding call and an upsert
exactly when the backend has no entry for its chunk_id or the stored
content_hash differs. -/
def chunkNeedsUpsert (b : Backend) (ch : Chunk) : Bool :=
  match lookupEntry b ch.chunk_id with
  | Option.none => true
  | some e => decide (e.content_hash ≠ ch.content_hash)

/-- Modelled from the spec: upsert every chunk of the work list in order
(step 3 of the reconcile algorithm). -/
def upsertAll (embed : String → List Int) (b : Backend) (ns : List Chunk) : Backend :=
  ns.foldl (fun acc ch => upsertEntry acc (entryOfChunk embed ch)) b

/-- The outcome of a reconcile run: the new backend state, the number of
embedding calls, upserts and deletions performed, and the returned Index
Stats. -/
structure ReconcileResult where
  backend : Backend
  embedCalls : Nat
  upserts : Nat
  deletes : Nat
  stats : IndexStats

/-- Modelled from the spec: the reconcile algorithm of the Incremental
Indexer (not part of this repository). Chunk every chapter, embed and
upsert exactly the chunks with no entry or a changed hash, then delete
every existing entry whose chunk_id is no longer in the fresh chunk set,
and return the updated stats. Deletions are applied after the upserts. -/
def reconcile (embed : String → List Int) (now : Nat) (backend : Backend)
    (chapters : List Chapter) : ReconcileResult :=
  let chunks := chapters.flatMap chunkChapter
  let needsEmbed := chunks.filter (chunkNeedsUpsert backend)
  let afterUpserts := upsertAll embed backend needsEmbed
  let freshIds := chunks.map Chunk.chunk_id
  let staleIds := (backend.map IndexEntry.chunk_id).filter (fun cid => !(decide (cid ∈ freshIds)))
  let finalBackend := deleteEntries afterUpserts staleIds
  { backend := finalBackend,
    embedCalls := needsEmbed.length,
    upserts := needsEmbed.length,
    deletes := staleIds.length,
    stats := statsOf finalBackend now }

/-- The ordered pair of chapters a Missing Link connects. -/
def pairOf (l : MissingLink) : String × String := (l.from_chapter, l.to_chapter)

/-- Numeric rank of a severity, used to compare candidates: high above
medium above low. -/
def sevRank : Severity → Nat
  | .high => 3
  | .medium => 2
  | .low => 1

/-- The candidate of higher severity rank among two, preferring the
second on ties. -/
def maxBySeverity (l b : MissingLink) : MissingLink :=
  if sevRank l.severity > sevRank b.severity then l else b

/-- Modelled from the spec: the highest-severity candidate for one ordered
chapter pair among a candidate list (tie-break rule of the Continuity
Analyzer, not part of this repository). -/
def bestForPair (p : String × String) : List MissingLink → Option MissingLink
  | [] => Option.none
  | l :: rest =>
      if pairOf l = p then some ((bestForPair p rest).elim l (maxBySeverity l))
      else bestForPair p rest

/-- Modelled from the spec: collapse duplicate candidates by
(from_chapter, to_chapter), keeping the max-severity entry for each
ordered pair. -/
def dedupLinks (links : List MissingLink) : List MissingLink :=
  ((links.map pairOf).dedup).filterMap (fun p => bestForPair p links)

/-- A Missing Link with the given endpoints and severity and empty prose
fields, used for the concrete scoring examples of the spec. -/
def demoLink (fc tc : String) (sev : Severity) : MissingLink :=
  { from_chapter := fc, to_chapter := tc, description := "", severity := sev,
    suggestion := "" }

/-- A missing link between the non-adjacent pair ch1 and ch5, touching
the node ch1 only; used as the concrete input refuting the edge-marking
claim. -/
def crossLink : MissingLink :=
  { from_chapter := "ch1", to_chapter := "ch5",
    description := "The conclusion never returns to the research question.",
    severity := Severity.high,
    suggestion := "Add a bridging paragraph." }

/-- A low-severity candidate for the pair Chapter 2 to Chapter 3. -/
def lowLink : MissingLink :=
  { from_chapter := "Chapter 2", to_chapter := "Chapter 3",
    description := "Terminology drifts between the chapters.",
    severity := Severity.low, suggestion := "Align the terms." }

/-- A high-severity candidate for the same pair Chapter 2 to Chapter 3. -/
def highLink : MissingLink :=
  { from_chapter := "Chapter 2", to_chapter := "Chapter 3",
    description := "The stated hypothesis is contradicted.",
    severity := Severity.high, suggestion := "Reconcile the claims." }

/-- A fully broken consistency report carrying the valid score 0 together
with status, analysis, issues and suggestions. -/
def brokenReport : ConsistencyReport :=
  { overall_score := some 0, status := some "broken",
    consistency_analysis := some "No thread connects the chapters.",
    issues := some ["Chapter 3 ignores the question posed in Chapter 1."],
    suggestions := some ["Rewrite the bridge paragraph."],
    cross_references := Option.none }

/-- A component state whose introduction passage is whitespace-only. -/
def blankIntroState : RedThreadState :=
  { introduction := "   ", discussion := "We conclude that the method works.",
    result := Option.none, isProcessing := false, error := Option.none }

/-- A concrete schema over natural numbers accepting exactly the value
7, used to exercise safeFetch. -/
def natSchema : ZodSchema Nat Nat :=
  { safeParse := fun n => if n = 7 then Except.ok n else Except.error ["expected the number 7"] }

/-- A failed HTTP response with status 500. -/
def resp500 : HttpResponse Nat :=
  { ok := false, status := 500, errorDetail := Option.none, body := 0 }

/-- A successful HTTP response whose body fails schema validation. -/
def respBadBody : HttpResponse Nat :=
  { ok := true, status := 200, errorDetail := Option.none, body := 3 }

/-- A successful HTTP response whose body validates. -/
def respGood : HttpResponse Nat :=
  { ok := true, status := 200, errorDetail := Option.none, body := 7 }

/-- A concrete embedding provider for the reconcile examples. -/
def demoEmbed : String → List Int := fun s => [Int.ofNat s.length]

/-- A concrete backend entry for the chapter chX, well-formed in that its
chunk identifier names its chapter. -/
def wfEntry : IndexEntry :=
  { chunk_id := ("chX", 0), embedding := [1], chapter_id := "chX", position := 0,
    content_hash := "stale text" }

/-- A concrete one-chapter input set that does not contain chX. -/
def demoChapters : List Chapter :=
  [{ chapter_id := "ch1", title := "Introduction",
     text := "First paragraph.\n\nSecond paragraph.", modified_at := 0 }]

theorem foldl_sub_penalty (links : List MissingLink) (init : Int) :
    links.foldl (fun s l => s - severityPenalty l.severity) init
      = init - (links.map (fun l => severityPenalty l.severity)).sum := by
  induction links generalizing init with
  | nil => simp
  | cons l rest ih =>
      simp only [List.foldl_cons, List.map_cons, List.sum_cons, ih]
      omega

/-- C1: the continuity check computes the overall score deterministically
as 100 minus the fixed penalty per link by severity (high 25, medium 15,
low 5) clamped to the range from 0 to 100; a high plus a medium link give
score 60 with status weak, and four high links give score 0, not a
negative value, with status broken. -/
theorem c1_scoring_deterministic (links : List MissingLink) :
    computeScore links
        = max 0 (min 100 (100 - (links.map (fun l => severityPenalty l.severity)).sum))
    ∧ computeScore [demoLink "Chapter 1" "Chapter 2" Severity.high,
        demoLink "Chapter 2" "Chapter 3" Severity.medium] = 60
    ∧ deriveStatus (computeScore [demoLink "Chapter 1" "Chapter 2" Severity.high,
        demoLink "Chapter 2" "Chapter 3" Severity.medium]) = ScoreStatus.weak
    ∧ computeScore (List.replicate 4 (demoLink "Chapter 1" "Chapter 2" Severity.high)) = 0
    ∧ deriveStatus
        (computeScore (List.replicate 4 (demoLink "Chapter 1" "Chapter 2" Severity.high)))
        = ScoreStatus.broken := by
  refine ⟨?_, by decide, by decide, by decide, by decide⟩
  unfold computeScore
  rw [foldl_sub_penalty]

/-- C2: for every score the classification used by the client and the
spec has exactly the two boundaries 30 and 70: broken and the red classes
exactly below 30, weak and the amber classes exactly from 30 up to but
excluding 70, solid and the green classes exactly from 70 on. -/
theorem c2_status_partition (s : Int) :
    (deriveStatus s = ScoreStatus.broken ↔ s < 30)
    ∧ (deriveStatus s = ScoreStatus.weak ↔ 30 ≤ s ∧ s < 70)
    ∧ (deriveStatus s = ScoreStatus.solid ↔ 70 ≤ s)
    ∧ ((getScoreColor s).bg = "bg-red-500" ↔ s < 30)
    ∧ ((getScoreColor s).bg = "bg-amber-500" ↔ 30 ≤ s ∧ s < 70)
    ∧ ((getScoreColor s).bg = "bg-green-500" ↔ 70 ≤ s)
    ∧ (statusBadgeClass s = "bg-red-500/20 text-red-400" ↔ s < 30)
    ∧ (statusBadgeClass s = "bg-amber-500/20 text-amber-400" ↔ 30 ≤ s ∧ s < 70)
    ∧ (statusBadgeClass s = "bg-green-500/20 text-green-400" ↔ 70 ≤ s) := by
  unfold deriveStatus getScoreColor statusBadgeClass
  split_ifs with h1 h2 <;>
    refine ⟨?_, ?_, ?_, ?_, ?_, ?_, ?_, ?_, ?_⟩ <;>
      simp_all <;> omega

/-- C7: the continuity report schemas consumed by the client define no
field that could mark a partially completed check: no field name of
RedThreadResponse or RedThreadCheckResponse equals a partial-completion
marker or even contains the word partial, and thread_status only admits
solid, broken and unknown; the error-handling requirement that a partial
check clearly mark itself is therefore not implementable over these
schemas. -/
theorem c7_no_partial_marker :
    ((redThreadResponseFields ++ redThreadCheckResponseFields).all
      (fun f => !(markerFieldNames.contains f) && !(jsIncludes f "partial"))) = true
    ∧ threadStatusValues = ["solid", "broken", "unknown"] := by
  exact ⟨by decide, rfl⟩

/-- C3 counterexample: the missing link from ch1 to ch5 is not between
the adjacent ordered pair ch1 and ch2, yet getConnectionStatus marks the
edge from ch1 to ch2 broken even under a solid thread status, because the
test accepts a link touching only one endpoint. -/
theorem c3_counterexample :
    getConnectionStatus [crossLink] ThreadStatus.solid "ch1" "ch2" = ConnStatus.broken
    ∧ (crossLink.from_chapter, crossLink.to_chapter) ≠ ("ch1", "ch2") := by
  exact ⟨by decide, by decide⟩

/-- C3 amended: the synthesized edge between adjacent nodes is never
absent, and it is marked broken exactly when some missing link matches
the disjunctive containment test of getConnectionStatus, with one
endpoint match sufficing, or when the thread status is broken while the
missing-link list is empty; in every other case it is solid. -/
theorem c3_connection_characterization (links : List MissingLink) (ts : ThreadStatus)
    (fromId toId : String) :
    getConnectionStatus links ts fromId toId ≠ ConnStatus.none
    ∧ (getConnectionStatus links ts fromId toId = ConnStatus.broken ↔
        links.any (edgeMatchesLink fromId toId) = true
        ∨ (ts = ThreadStatus.broken ∧ links = [])) := by
  simp only [getConnectionStatus]
  split_ifs with h1 h2 h3
  · simp [h1]
  · simp_all
  · obtain ⟨hts, hlen⟩ := h3
    simp_all [List.length_eq_zero]
  · constructor
    · simp
    · constructor
      · intro h
        cases h
      · rintro (h | ⟨hts, hnil⟩)
        · exact absurd h h1
        · exact absurd ⟨hts, by simp [hnil]⟩ h3

/-- C3 amended witness at a concrete input: with no links and a broken
thread status the segment is drawn broken. -/
theorem c3_connection_characterization_witness :
    getConnectionStatus [] ThreadStatus.broken "ch1" "ch2" = ConnStatus.broken :=
  (c3_connection_characterization [] ThreadStatus.broken "ch1" "ch2").2.mpr
    (Or.inr ⟨rfl, rfl⟩)

/-- C8: in the consistency-check client, a report whose overall_score is
0 or absent makes scoreColors null, so the results section is not
rendered at all, although 0 is a valid score. -/
theorem c8_zero_score_unrendered (r : ConsistencyReport)
    (h : r.overall_score = some 0 ∨ r.overall_score = Option.none) :
    scoreColors (some r) = Option.none ∧ resultsSectionRendered (some r) = false := by
  have hf : jsTruthyOptNum r.overall_score = false := by
    rcases h with h | h <;> simp [jsTruthyOptNum, h]
  constructor
  · simp [scoreColors, hf]
  · simp [resultsSectionRendered, scoreColors, hf]

/-- C8 witness: the fully broken report with score 0 is not rendered. -/
theorem c8_zero_score_unrendered_witness :
    scoreColors (some brokenReport) = Option.none
    ∧ resultsSectionRendered (some brokenReport) = false :=
  c8_zero_score_unrendered brokenReport (Or.inl rfl)

/-- C9: when the introduction or the discussion passage trims to the
empty string, the synchronous phase of handleCheck returns the state
unchanged and issues no request, and the Check Continuity button is
disabled. -/
theorem c9_handleCheck_guard (st : RedThreadState)
    (h : jsTrim st.introduction = "" ∨ jsTrim st.discussion = "") :
    handleCheckStart st = (st, false) ∧ checkButtonDisabled st = true := by
  rcases h with h | h <;>
    exact ⟨by simp [handleCheckStart, jsTruthyStr, h],
           by simp [checkButtonDisabled, jsTruthyStr, h]⟩

/-- C9 witness: a whitespace-only introduction passage blocks the check. -/
theorem c9_handleCheck_guard_witness :
    handleCheckStart blankIntroState = (blankIntroState, false)
    ∧ checkButtonDisabled blankIntroState = true :=
  c9_handleCheck_guard blankIntroState (Or.inl (by decide))

/-- C10: safeFetch returns a value only for an ok response whose body
validates: a non-ok response yields an APIError carrying the HTTP status,
an ok response failing validation yields an APIValidationError carrying
the issues, and a returned value implies the response was ok and the body
parsed to exactly that value. -/
theorem c10_safeFetch_validates {α β : Type} (response : HttpResponse α)
    (schema : ZodSchema α β) :
    (response.ok = false →
      safeFetch response schema
        = FetchOutcome.apiError (apiErrorMessage response.status response.errorDetail)
            response.status)
    ∧ (∀ issues, response.ok = true →
        schema.safeParse response.body = Except.error issues →
        safeFetch response schema
          = FetchOutcome.validationError
              ("API response validation failed: " ++ String.intercalate ", " issues) issues)
    ∧ (∀ data, safeFetch response schema = FetchOutcome.success data →
        response.ok = true ∧ schema.safeParse response.body = Except.ok data) := by
  refine ⟨?_, ?_, ?_⟩
  · intro hok
    simp [safeFetch, hok]
  · intro issues hok hparse
    simp [safeFetch, hok, hparse]
  · intro data hres
    by_cases hok : response.ok
    · refine ⟨hok, ?_⟩
      rw [safeFetch, if_neg (by simp [hok])] at hres
      cases hparse : schema.safeParse response.body with
      | error issues => rw [hparse] at hres; cases hres
      | ok d =>
          rw [hparse] at hres
          cases hres
          rfl
    · rw [safeFetch, if_pos (by simp [hok])] at hres
      cases hres

/-- C10 witness: the three behaviors at concrete responses against the
schema accepting exactly 7. -/
theorem c10_safeFetch_validates_witness :
    safeFetch resp500 natSchema
        = FetchOutcome.apiError (apiErrorMessage 500 Option.none) 500
    ∧ safeFetch respBadBody natSchema
        = FetchOutcome.validationError
            ("API response validation failed: "
              ++ String.intercalate ", " ["expected the number 7"])
            ["expected the number 7"]
    ∧ (respGood.ok = true ∧ natSchema.safeParse respGood.body = Except.ok 7) :=
  ⟨(c10_safeFetch_validates resp500 natSchema).1 rfl,
   (c10_safeFetch_validates respBadBody natSchema).2.1 ["expected the number 7"] rfl rfl,
   (c10_safeFetch_validates respGood natSchema).2.2 7 rfl⟩


theorem maxBySeverity_cases (l b : MissingLink) :
    maxBySeverity l b = l ∨ maxBySeverity l b = b := by
  unfold maxBySeverity
  split_ifs <;> simp

theorem le_maxBySeverity_left (l b : MissingLink) :
    sevRank l.severity ≤ sevRank (maxBySeverity l b).severity := by
  unfold maxBySeverity
  split_ifs with h
  · exact le_refl _
  · exact Nat.le_of_not_lt h

theorem le_maxBySeverity_right (l b : MissingLink) :
    sevRank b.severity ≤ sevRank (maxBySeverity l b).severity := by
  unfold maxBySeverity
  split_ifs with h
  · exact le_of_lt h
  · exact le_refl _

theorem bestForPair_eq_none {p : String × String} (links : List MissingLink) :
    bestForPair p links = Option.none → ∀ l ∈ links, pairOf l ≠ p := by
  induction links with
  | nil => intro h l hl; cases hl
  | cons x rest ih =>
      intro h l hl hp
      cases hr : bestForPair p rest with
      | none =>
          simp only [bestForPair, hr, Option.elim_none] at h
          by_cases hx : pairOf x = p
          · rw [if_pos hx] at h
            cases h
          · rcases List.mem_cons.mp hl with h1 | h1
            · exact hx (h1 ▸ hp)
            · exact ih hr l h1 hp
      | some b =>
          simp only [bestForPair, hr, Option.elim_some] at h
          split at h <;> cases h

theorem bestForPair_mem {p : String × String} (links : List MissingLink) :
    ∀ {m : MissingLink}, bestForPair p links = some m → m ∈ links ∧ pairOf m = p := by
  induction links with
  | nil => intro m h; cases h
  | cons x rest ih =>
      intro m h
      cases hr : bestForPair p rest with
      | none =>
          simp only [bestForPair, hr, Option.elim_none] at h
          by_cases hx : pairOf x = p
          · rw [if_pos hx] at h
            cases h
            exact ⟨List.mem_cons_self x rest, hx⟩
          · rw [if_neg hx] at h
            cases h
      | some b =>
          simp only [bestForPair, hr, Option.elim_some] at h
          by_cases hx : pairOf x = p
          · rw [if_pos hx] at h
            cases h
            rcases maxBySeverity_cases x b with hc | hc <;> rw [hc]
            · exact ⟨List.mem_cons_self x rest, hx⟩
            · obtain ⟨hmem, hpair⟩ := ih hr
              exact ⟨List.mem_cons_of_mem x hmem, hpair⟩
          · rw [if_neg hx] at h
            cases h
            obtain ⟨hmem, hpair⟩ := ih hr
            exact ⟨List.mem_cons_of_mem x hmem, hpair⟩

theorem bestForPair_max {p : String × String} (links : List MissingLink) :
    ∀ {m : MissingLink}, bestForPair p links = some m →
      ∀ l ∈ links, pairOf l = p → sevRank l.severity ≤ sevRank m.severity := by
  induction links with
  | nil => intro m h l hl; cases hl
  | cons x rest ih =>
      intro m h l hl hp
      cases hr : bestForPair p rest with
      | none =>
          simp only [bestForPair, hr, Option.elim_none] at h
          by_cases hx : pairOf x = p
          · rw [if_pos hx] at h
            cases h
            rcases List.mem_cons.mp hl with h1 | h1
            · exact le_of_eq (congrArg (fun y => sevRank y.severity) h1)
            · exact absurd hp (bestForPair_eq_none rest hr l h1)
          · rw [if_neg hx] at h
            cases h
      | some b =>
          simp only [bestForPair, hr, Option.elim_some] at h
          by_cases hx : pairOf x = p
          · rw [if_pos hx] at h
            cases h
            rcases List.mem_cons.mp hl with h1 | h1
            · exact h1 ▸ le_maxBySeverity_left x b
            · exact le_trans (ih hr l h1 hp) (le_maxBySeverity_right x b)
          · rw [if_neg hx] at h
            cases h
            rcases List.mem_cons.mp hl with h1 | h1
            · exact absurd (h1 ▸ hp) hx
            · exact ih hr l h1 hp

theorem filterMap_bestForPair_map_pairOf (links : List MissingLink)
    (ps : List (String × String))
    (hps : ∀ p ∈ ps, ∃ l ∈ links, pairOf l = p) :
    (ps.filterMap (fun p => bestForPair p links)).map pairOf = ps := by
  induction ps with
  | nil => rfl
  | cons p rest ih =>
      obtain ⟨l, hl, hlp⟩ := hps p (List.mem_cons_self p rest)
      cases hb : bestForPair p links with
      | none => exact absurd hlp (bestForPair_eq_none links hb l hl)
      | some m =>
          simp only [List.filterMap_cons, hb, List.map_cons]
          rw [(bestForPair_mem links hb).2]
          exact congrArg (List.cons p) (ih (fun q hq => hps q (List.mem_cons_of_mem p hq)))

/-- C6: the retained missing links contain at most one entry per ordered
chapter pair, each retained entry is one of the candidates and has
maximal severity among the candidates for its pair, every candidate pair
is represented, and the concrete pair with severities low and high
collapses to the single high entry. -/
theorem c6_pair_dedup (links : List MissingLink) :
    ((dedupLinks links).map pairOf).Nodup
    ∧ (∀ m ∈ dedupLinks links, m ∈ links)
    ∧ (∀ m ∈ dedupLinks links, ∀ l ∈ links, pairOf l = pairOf m →
        sevRank l.severity ≤ sevRank m.severity)
    ∧ (∀ l ∈ links, ∃ m ∈ dedupLinks links, pairOf m = pairOf l)
    ∧ dedupLinks [lowLink, highLink] = [highLink] := by
  have hmap : ((dedupLinks links).map pairOf) = (links.map pairOf).dedup := by
    unfold dedupLinks
    refine filterMap_bestForPair_map_pairOf links _ (fun p hp => ?_)
    obtain ⟨l, hl, hlp⟩ := List.mem_map.mp (List.mem_dedup.mp hp)
    exact ⟨l, hl, hlp⟩
  refine ⟨?_, ?_, ?_, ?_, by decide⟩
  · rw [hmap]
    exact List.nodup_dedup (links.map pairOf)
  · intro m hm
    obtain ⟨p, hp, hb⟩ := List.mem_filterMap.mp hm
    exact (bestForPair_mem links hb).1
  · intro m hm l hl hpl
    obtain ⟨p, hp, hb⟩ := List.mem_filterMap.mp hm
    exact bestForPair_max links hb l hl (hpl.trans (bestForPair_mem links hb).2)
  · intro l hl
    have hpd : pairOf l ∈ (links.map pairOf).dedup :=
      List.mem_dedup.mpr (List.mem_map_of_mem pairOf hl)
    cases hb : bestForPair (pairOf l) links with
    | none => exact absurd rfl (bestForPair_eq_none links hb l hl)
    | some m =>
        refine ⟨m, List.mem_filterMap.mpr ⟨pairOf l, hpd, hb⟩, ?_⟩
        exact (bestForPair_mem links hb).2

/-- C6 witness: among the concrete pair of candidates the retained high
entry dominates the low candidate. -/
theorem c6_pair_dedup_witness :
    sevRank lowLink.severity ≤ sevRank highLink.severity
    ∧ highLink ∈ [lowLink, highLink] :=
  ⟨(c6_pair_dedup [lowLink, highLink]).2.2.1 highLink (by decide) lowLink (by decide)
      (by decide),
   by decide⟩

theorem upsertAll_nil (embed : String → List Int) (b : Backend) :
    upsertAll embed b [] = b := rfl

theorem upsertAll_cons (embed : String → List Int) (b : Backend) (c : Chunk)
    (rest : List Chunk) :
    upsertAll embed b (c :: rest)
      = upsertAll embed (upsertEntry b (entryOfChunk embed c)) rest := rfl

theorem lookupEntry_upsertEntry_self (b : Backend) (e : IndexEntry) :
    lookupEntry (upsertEntry b e) e.chunk_id = some e := by
  induction b with
  | nil => simp [upsertEntry, lookupEntry]
  | cons x rest ih =>
      by_cases hx : x.chunk_id = e.chunk_id
      · simp [upsertEntry, hx, lookupEntry]
      · simp only [upsertEntry, if_neg hx, lookupEntry]
        exact ih


theorem lookupEntry_upsertEntry_ne (b : Backend) (e : IndexEntry) (cid : ChunkId)
    (h : cid ≠ e.chunk_id) :
    lookupEntry (upsertEntry b e) cid = lookupEntry b cid := by
  induction b with
  | nil =>
      simp only [upsertEntry, lookupEntry]
      rw [if_neg (fun he => h he.symm)]
  | cons x rest ih =>
      by_cases hx : x.chunk_id = e.chunk_id
      · simp only [upsertEntry, if_pos hx, lookupEntry]
        rw [if_neg (fun he => h he.symm), if_neg (fun he => h (he.symm.trans hx))]
      · simp only [upsertEntry, if_neg hx, lookupEntry]
        by_cases hxc : x.chunk_id = cid
        · rw [if_pos hxc, if_pos hxc]
        · rw [if_neg hxc, if_neg hxc]
          exact ih

theorem mem_upsertEntry (b : Backend) (e x : IndexEntry) (h : x ∈ upsertEntry b e) :
    x ∈ b ∨ x = e := by
  induction b with
  | nil =>
      simp only [upsertEntry] at h
      rcases List.mem_singleton.mp h with h1
      exact Or.inr h1
  | cons y rest ih =>
      by_cases hy : y.chunk_id = e.chunk_id
      · simp only [upsertEntry, if_pos hy] at h
        rcases List.mem_cons.mp h with h1 | h1
        · exact Or.inr h1
        · exact Or.inl (List.mem_cons_of_mem y h1)
      · simp only [upsertEntry, if_neg hy] at h
        rcases List.mem_cons.mp h with h1 | h1
        · exact Or.inl (h1 ▸ List.mem_cons_self y rest)
        · rcases ih h1 with h2 | h2
          · exact Or.inl (List.mem_cons_of_mem y h2)
          · exact Or.inr h2

theorem mem_map_chunkId_upsertEntry {b : Backend} {e : IndexEntry} {cid : ChunkId}
    (h : cid ∈ (upsertEntry b e).map IndexEntry.chunk_id) :
    cid ∈ b.map IndexEntry.chunk_id ∨ cid = e.chunk_id := by
  obtain ⟨y, hy, hid⟩ := List.mem_map.mp h
  rcases mem_upsertEntry b e y hy with h1 | h1
  · exact Or.inl (hid ▸ List.mem_map_of_mem IndexEntry.chunk_id h1)
  · exact Or.inr (hid ▸ h1 ▸ rfl)

theorem nodup_upsertEntry (b : Backend) (e : IndexEntry)
    (h : (b.map IndexEntry.chunk_id).Nodup) :
    ((upsertEntry b e).map IndexEntry.chunk_id).Nodup := by
  induction b with
  | nil => simp [upsertEntry]
  | cons x rest ih =>
      rw [List.map_cons, List.nodup_cons] at h
      by_cases hx : x.chunk_id = e.chunk_id
      · simp only [upsertEntry, if_pos hx, List.map_cons, List.nodup_cons]
        exact ⟨hx ▸ h.1, h.2⟩
      · simp only [upsertEntry, if_neg hx, List.map_cons, List.nodup_cons]
        refine ⟨fun hmem => ?_, ih h.2⟩
        rcases mem_map_chunkId_upsertEntry hmem with h1 | h1
        · exact h.1 h1
        · exact hx h1

theorem lookupEntry_upsertAll_not_mem (embed : String → List Int) (ns : List Chunk)
    (b : Backend) (cid : ChunkId) (h : cid ∉ ns.map Chunk.chunk_id) :
    lookupEntry (upsertAll embed b ns) cid = lookupEntry b cid := by
  induction ns generalizing b with
  | nil => rfl
  | cons ch rest ih =>
      rw [List.map_cons] at h
      rw [upsertAll_cons, ih _ (fun hm => h (List.mem_cons_of_mem _ hm))]
      exact lookupEntry_upsertEntry_ne b (entryOfChunk embed ch) cid
        (fun he => h (he ▸ List.mem_cons_self _ _))

theorem lookupEntry_upsertAll_mem (embed : String → List Int) (ns : List Chunk)
    (b : Backend) (ch : Chunk) (hch : ch ∈ ns) (hnd : (ns.map Chunk.chunk_id).Nodup) :
    lookupEntry (upsertAll embed b ns) ch.chunk_id = some (entryOfChunk embed ch) := by
  induction ns generalizing b with
  | nil => cases hch
  | cons x rest ih =>
      rw [List.map_cons, List.nodup_cons] at hnd
      rcases List.mem_cons.mp hch with h1 | h1
      · subst h1
        rw [upsertAll_cons, lookupEntry_upsertAll_not_mem embed rest _ _ hnd.1]
        exact lookupEntry_upsertEntry_self b (entryOfChunk embed ch)
      · rw [upsertAll_cons]
        exact ih _ h1 hnd.2

theorem mem_upsertAll (embed : String → List Int) (ns : List Chunk) (b : Backend)
    (x : IndexEntry) (h : x ∈ upsertAll embed b ns) :
    x ∈ b ∨ ∃ ch ∈ ns, x = entryOfChunk embed ch := by
  induction ns generalizing b with
  | nil => exact Or.inl h
  | cons c rest ih =>
      rw [upsertAll_cons] at h
      rcases ih _ h with h1 | h1
      · rcases mem_upsertEntry _ _ _ h1 with h2 | h2
        · exact Or.inl h2
        · exact Or.inr ⟨c, List.mem_cons_self c rest, h2⟩
      · obtain ⟨ch, hch, he⟩ := h1
        exact Or.inr ⟨ch, List.mem_cons_of_mem c hch, he⟩

theorem nodup_upsertAll (embed : String → List Int) (ns : List Chunk) (b : Backend)
    (h : (b.map IndexEntry.chunk_id).Nodup) :
    ((upsertAll embed b ns).map IndexEntry.chunk_id).Nodup := by
  induction ns generalizing b with
  | nil => exact h
  | cons c rest ih =>
      rw [upsertAll_cons]
      exact ih _ (nodup_upsertEntry _ _ h)

theorem mem_deleteEntries {b : Backend} {ids : List ChunkId} {e : IndexEntry} :
    e ∈ deleteEntries b ids ↔ e ∈ b ∧ e.chunk_id ∉ ids := by
  unfold deleteEntries
  rw [List.mem_filter]
  simp

theorem lookupEntry_deleteEntries_not_mem (b : Backend) (ids : List ChunkId)
    (cid : ChunkId) (h : cid ∉ ids) :
    lookupEntry (deleteEntries b ids) cid = lookupEntry b cid := by
  induction b with
  | nil => rfl
  | cons x rest ih =>
      by_cases hx : x.chunk_id ∈ ids
      · have hne : x.chunk_id ≠ cid := fun he => h (he ▸ hx)
        simp only [deleteEntries, List.filter_cons] at ih ⊢
        rw [if_neg (by simp [hx]), lookupEntry, if_neg hne]
        exact ih
      · simp only [deleteEntries, List.filter_cons] at ih ⊢
        rw [if_pos (by simp [hx])]
        by_cases hxc : x.chunk_id = cid
        · simp only [lookupEntry, if_pos hxc]
        · simp only [lookupEntry, if_neg hxc]
          exact ih

theorem nodup_deleteEntries (b : Backend) (ids : List ChunkId)
    (h : (b.map IndexEntry.chunk_id).Nodup) :
    ((deleteEntries b ids).map IndexEntry.chunk_id).Nodup :=
  h.sublist (List.Sublist.map IndexEntry.chunk_id (List.filter_sublist b))

theorem chunkChapter_fields {c : Chapter} {ch : Chunk} (h : ch ∈ chunkChapter c) :
    ch.chapter_id = c.chapter_id ∧ ch.chunk_id.1 = c.chapter_id := by
  unfold chunkChapter at h
  obtain ⟨pi, hpi, he⟩ := List.mem_map.mp h
  subst he
  exact ⟨rfl, rfl⟩

theorem chunkChapter_map_chunkId (c : Chapter) :
    (chunkChapter c).map Chunk.chunk_id
      = ((paragraphsOf c.text).enum.map Prod.fst).map (fun i => ((c.chapter_id, i) : ChunkId)) := by
  unfold chunkChapter
  rw [List.map_map, List.map_map]
  rfl

theorem chunkChapter_nodup (c : Chapter) : ((chunkChapter c).map Chunk.chunk_id).Nodup := by
  rw [chunkChapter_map_chunkId, List.enum_map_fst]
  refine List.Nodup.map ?_ (List.nodup_range _)
  intro i j hij
  exact (Prod.mk.injEq _ _ _ _ ▸ hij).2

theorem chunksOf_nodup (chapters : List Chapter)
    (h : (chapters.map Chapter.chapter_id).Nodup) :
    ((chapters.flatMap chunkChapter).map Chunk.chunk_id).Nodup := by
  rw [List.map_flatMap]
  rw [List.nodup_flatMap]
  constructor
  · intro c hc
    exact chunkChapter_nodup c
  · have hpw : chapters.Pairwise (fun a b => a.chapter_id ≠ b.chapter_id) := by
      rw [List.Nodup, List.pairwise_map] at h
      exact h
    refine hpw.imp ?_
    intro a b hab
    intro cid hca hcb
    obtain ⟨x, hx, hxe⟩ := List.mem_map.mp hca
    obtain ⟨y, hy, hye⟩ := List.mem_map.mp hcb
    have h1 : cid.1 = a.chapter_id := hxe ▸ (chunkChapter_fields hx).2
    have h2 : cid.1 = b.chapter_id := hye ▸ (chunkChapter_fields hy).2
    exact hab (h1 ▸ h2)

theorem deleteEntries_nil (b : Backend) : deleteEntries b [] = b := by
  simp [deleteEntries]

theorem reconcile_embedCalls_eq (embed : String → List Int) (now : Nat) (backend : Backend)
    (chapters : List Chapter) :
    (reconcile embed now backend chapters).embedCalls
      = ((chapters.flatMap chunkChapter).filter (chunkNeedsUpsert backend)).length := rfl

theorem reconcile_upserts_eq (embed : String → List Int) (now : Nat) (backend : Backend)
    (chapters : List Chapter) :
    (reconcile embed now backend chapters).upserts
      = ((chapters.flatMap chunkChapter).filter (chunkNeedsUpsert backend)).length := rfl

theorem reconcile_backend_eq (embed : String → List Int) (now : Nat) (backend : Backend)
    (chapters : List Chapter) :
    (reconcile embed now backend chapters).backend
      = deleteEntries
          (upsertAll embed backend
            ((chapters.flatMap chunkChapter).filter (chunkNeedsUpsert backend)))
          ((backend.map IndexEntry.chunk_id).filter
            (fun cid => !(decide (cid ∈ (chapters.flatMap chunkChapter).map Chunk.chunk_id)))) :=
  rfl

theorem reconcile_total_eq (embed : String → List Int) (now : Nat) (backend : Backend)
    (chapters : List Chapter) :
    (reconcile embed now backend chapters).stats.total_chunks
      = (reconcile embed now backend chapters).backend.length := rfl

theorem reconcile_chapters_indexed_eq (embed : String → List Int) (now : Nat)
    (backend : Backend) (chapters : List Chapter) :
    (reconcile embed now backend chapters).stats.chapters_indexed
      = ((reconcile embed now backend chapters).backend.map IndexEntry.chapter_id).dedup := rfl

theorem reconcile_lookup_fresh (embed : String → List Int) (now : Nat) (backend : Backend)
    (chapters : List Chapter)
    (hnd : ((chapters.flatMap chunkChapter).map Chunk.chunk_id).Nodup)
    {ch : Chunk} (hch : ch ∈ chapters.flatMap chunkChapter) :
    ∃ e, lookupEntry (reconcile embed now backend chapters).backend ch.chunk_id = some e
      ∧ e.content_hash = ch.content_hash := by
  rw [reconcile_backend_eq]
  have hchF : ch.chunk_id ∈ (chapters.flatMap chunkChapter).map Chunk.chunk_id :=
    List.mem_map_of_mem Chunk.chunk_id hch
  have hchS : ch.chunk_id ∉ (backend.map IndexEntry.chunk_id).filter
      (fun cid => !(decide (cid ∈ (chapters.flatMap chunkChapter).map Chunk.chunk_id))) := by
    intro hmem
    have h2 := (List.mem_filter.mp hmem).2
    simp only [Bool.not_eq_true', decide_eq_false_iff_not] at h2
    exact h2 hchF
  rw [lookupEntry_deleteEntries_not_mem _ _ _ hchS]
  by_cases hneed : chunkNeedsUpsert backend ch = true
  · have hchN : ch ∈ (chapters.flatMap chunkChapter).filter (chunkNeedsUpsert backend) :=
      List.mem_filter.mpr ⟨hch, hneed⟩
    have hndN : (((chapters.flatMap chunkChapter).filter
        (chunkNeedsUpsert backend)).map Chunk.chunk_id).Nodup :=
      hnd.sublist (List.Sublist.map Chunk.chunk_id (List.filter_sublist _))
    exact ⟨entryOfChunk embed ch,
      lookupEntry_upsertAll_mem embed _ backend ch hchN hndN, rfl⟩
  · unfold chunkNeedsUpsert at hneed
    cases hl : lookupEntry backend ch.chunk_id with
    | none => rw [hl] at hneed; simp at hneed
    | some e =>
        rw [hl] at hneed
        simp only [decide_eq_true_eq] at hneed
        have hhash : e.content_hash = ch.content_hash := not_not.mp hneed
        have hchNot : ch.chunk_id ∉ ((chapters.flatMap chunkChapter).filter
            (chunkNeedsUpsert backend)).map Chunk.chunk_id := by
          intro hmem
          obtain ⟨ch2, hch2, hid⟩ := List.mem_map.mp hmem
          have hch2c : ch2 ∈ chapters.flatMap chunkChapter := List.mem_of_mem_filter hch2
          have heq : ch2 = ch := List.inj_on_of_nodup_map hnd hch2c hch hid
          subst heq
          have hpred := (List.mem_filter.mp hch2).2
          unfold chunkNeedsUpsert at hpred
          rw [hl] at hpred
          simp only [decide_eq_true_eq] at hpred
          exact hpred hhash
        rw [lookupEntry_upsertAll_not_mem embed _ backend _ hchNot, hl]
        exact ⟨e, rfl, hhash⟩

theorem mem_reconcile_backend (embed : String → List Int) (now : Nat) (backend : Backend)
    (chapters : List Chapter) (e : IndexEntry)
    (he : e ∈ (reconcile embed now backend chapters).backend) :
    (e ∈ backend ∨ ∃ ch ∈ (chapters.flatMap chunkChapter).filter (chunkNeedsUpsert backend),
        e = entryOfChunk embed ch)
    ∧ e.chunk_id ∈ (chapters.flatMap chunkChapter).map Chunk.chunk_id := by
  rw [reconcile_backend_eq] at he
  have h1 := mem_deleteEntries.mp he
  have h2 := mem_upsertAll embed _ backend e h1.1
  refine ⟨h2, ?_⟩
  rcases h2 with h2 | h2
  · by_contra hnotF
    refine h1.2 (List.mem_filter.mpr ⟨List.mem_map_of_mem IndexEntry.chunk_id h2, ?_⟩)
    simp only [Bool.not_eq_true', decide_eq_false_iff_not]
    exact hnotF
  · obtain ⟨ch, hch, he2⟩ := h2
    have hchc : ch ∈ chapters.flatMap chunkChapter := List.mem_of_mem_filter hch
    rw [he2]
    exact List.mem_map_of_mem Chunk.chunk_id hchc

/-- C4: reconcile is idempotent; with pairwise distinct chapter
identifiers a second reconcile on the unchanged chapter set performs zero
embedding calls and zero upserts, and the returned total_chunks is
unchanged. -/
theorem c4_reconcile_idempotent (embed : String → List Int) (now1 now2 : Nat)
    (backend : Backend) (chapters : List Chapter)
    (hids : (chapters.map Chapter.chapter_id).Nodup) :
    (reconcile embed now2 (reconcile embed now1 backend chapters).backend chapters).embedCalls
        = 0
    ∧ (reconcile embed now2 (reconcile embed now1 backend chapters).backend chapters).upserts
        = 0
    ∧ (reconcile embed now2
          (reconcile embed now1 backend chapters).backend chapters).stats.total_chunks
        = (reconcile embed now1 backend chapters).stats.total_chunks := by
  have hnd := chunksOf_nodup chapters hids
  have hfilter : (chapters.flatMap chunkChapter).filter
      (chunkNeedsUpsert (reconcile embed now1 backend chapters).backend) = [] := by
    rw [List.filter_eq_nil_iff]
    intro ch hch
    obtain ⟨e, hle, hhash⟩ := reconcile_lookup_fresh embed now1 backend chapters hnd hch
    unfold chunkNeedsUpsert
    rw [hle]
    simp [hhash]
  have hstale : ((reconcile embed now1 backend chapters).backend.map
        IndexEntry.chunk_id).filter
      (fun cid => !(decide (cid ∈ (chapters.flatMap chunkChapter).map Chunk.chunk_id)))
      = [] := by
    rw [List.filter_eq_nil_iff]
    intro cid hcid
    obtain ⟨e, he, heid⟩ := List.mem_map.mp hcid
    have hF := (mem_reconcile_backend embed now1 backend chapters e he).2
    simp only [Bool.not_eq_true', decide_eq_false_iff_not, not_not]
    exact heid ▸ hF
  refine ⟨?_, ?_, ?_⟩
  · rw [reconcile_embedCalls_eq, hfilter]
    rfl
  · rw [reconcile_upserts_eq, hfilter]
    rfl
  · rw [reconcile_total_eq, reconcile_total_eq, reconcile_backend_eq embed now2, hfilter,
      hstale, upsertAll_nil, deleteEntries_nil]

/-- C5: after a reconcile whose input chapter set does not contain the
chapter x, no backend entry belongs to x, the returned chapters_indexed
does not contain x, and the backend keeps one entry per chunk identifier,
entries being replaced rather than duplicated. -/
theorem c5_deletion_propagation (embed : String → List Int) (now : Nat) (backend : Backend)
    (chapters : List Chapter) (x : String)
    (hwf : ∀ e ∈ backend, e.chunk_id.1 = e.chapter_id)
    (hx : x ∉ chapters.map Chapter.chapter_id)
    (hnd : (backend.map IndexEntry.chunk_id).Nodup) :
    (∀ e ∈ (reconcile embed now backend chapters).backend, e.chapter_id ≠ x)
    ∧ x ∉ (reconcile embed now backend chapters).stats.chapters_indexed
    ∧ ((reconcile embed now backend chapters).backend.map IndexEntry.chunk_id).Nodup := by
  have hidchap : ∀ cid ∈ (chapters.flatMap chunkChapter).map Chunk.chunk_id,
      cid.1 ∈ chapters.map Chapter.chapter_id := by
    intro cid hcid
    obtain ⟨ch, hch, hche⟩ := List.mem_map.mp hcid
    obtain ⟨c, hc, hchc⟩ := List.mem_flatMap.mp hch
    have h1 : ch.chunk_id.1 = c.chapter_id := (chunkChapter_fields hchc).2
    rw [← hche, h1]
    exact List.mem_map_of_mem Chapter.chapter_id hc
  have hmain : ∀ e ∈ (reconcile embed now backend chapters).backend, e.chapter_id ≠ x := by
    intro e he hex
    obtain ⟨hsrc, hidF⟩ := mem_reconcile_backend embed now backend chapters e he
    rcases hsrc with hb | ⟨ch, hch, hee⟩
    · have h1 : e.chunk_id.1 = x := hex ▸ hwf e hb
      have h2 := hidchap e.chunk_id hidF
      rw [h1] at h2
      exact hx h2
    · have hchk : ch ∈ chapters.flatMap chunkChapter := List.mem_of_mem_filter hch
      obtain ⟨c, hc, hchc⟩ := List.mem_flatMap.mp hchk
      have h1 : e.chapter_id = c.chapter_id := by
        rw [hee]
        exact (chunkChapter_fields hchc).1
      rw [hex] at h1
      exact hx (h1 ▸ List.mem_map_of_mem Chapter.chapter_id hc)
  refine ⟨hmain, ?_, ?_⟩
  · intro hmem
    rw [reconcile_chapters_indexed_eq] at hmem
    obtain ⟨e, he, hee⟩ := List.mem_map.mp (List.mem_dedup.mp hmem)
    exact hmain e he hee
  · rw [reconcile_backend_eq]
    exact nodup_deleteEntries _ _ (nodup_upsertAll embed _ backend hnd)

/-- C4 witness: indexing the demo chapter twice from the empty backend
performs no work on the second run. -/
theorem c4_reconcile_idempotent_witness :
    (reconcile demoEmbed 1 (reconcile demoEmbed 0 [] demoChapters).backend
        demoChapters).embedCalls = 0
    ∧ (reconcile demoEmbed 1 (reconcile demoEmbed 0 [] demoChapters).backend
        demoChapters).upserts = 0
    ∧ (reconcile demoEmbed 1 (reconcile demoEmbed 0 [] demoChapters).backend
        demoChapters).stats.total_chunks
        = (reconcile demoEmbed 0 [] demoChapters).stats.total_chunks :=
  c4_reconcile_idempotent demoEmbed 0 1 [] demoChapters (by decide)

/-- C5 witness: reconciling the demo chapter set against a backend
holding only an entry of the removed chapter chX purges chX. -/
theorem c5_deletion_propagation_witness :
    (∀ e ∈ (reconcile demoEmbed 5 [wfEntry] demoChapters).backend, e.chapter_id ≠ "chX")
    ∧ "chX" ∉ (reconcile demoEmbed 5 [wfEntry] demoChapters).stats.chapters_indexed
    ∧ ((reconcile demoEmbed 5 [wfEntry] demoChapters).backend.map
        IndexEntry.chunk_id).Nodup :=
  c5_deletion_propagation demoEmbed 5 [wfEntry] demoChapters "chX" (by decide) (by decide)
    (by decide)
